import Mathlib

/-!
# Verification of the chat orchestration pipeline (gsainfoteam/chatbot-be)

A shallow embedding of the chat orchestration pipeline of the chatbot
backend: tool registry caching, tool selection with retry, parallel tool
execution with timeouts, document relevance filtering, the grounding gate,
and the SSE streaming consumer.  Strings are modelled as `List Char`
(`Str`), asynchronous external calls (the MCP retrieval backend and the
language model) as explicit outcome parameters of type `Except Unit _` or
oracle functions, and machine timing as natural-number instants.

Source files embedded:
* `src/chat/services/chat-orchestration.service.ts`
* `src/chat/services/open-router.service.ts`
* `src/mcp/mcp-client.service.ts`
* `src/chat/prompts/error-messages.prompt.ts`
-/

namespace ChatbotBe

/-- Strings are modelled as lists of characters. -/
abbrev Str := List Char

/-- JavaScript whitespace characters (the common ASCII subset used by
`String.prototype.trim` and `\s`). -/
def isJsWs (c : Char) : Bool :=
  c = ' ' || c = '\t' || c = '\n' || c = '\r' || c = '\x0b' || c = '\x0c'

/-- Embeds `s.trim()`: remove leading and trailing whitespace. -/
def trimJs (s : Str) : Str :=
  ((s.dropWhile isJsWs).reverse.dropWhile isJsWs).reverse

/-- Embeds `hay.startsWith(needle)` / matching a literal at the head of a string. -/
def startsWithStr (hay needle : Str) : Bool :=
  match hay, needle with
  | _, [] => true
  | [], _ :: _ => false
  | h :: hs, n :: ns => h = n && startsWithStr hs ns

/-- Embeds `hay.includes(needle)`: substring containment. -/
def hasSubstr (hay needle : Str) : Bool :=
  if startsWithStr hay needle then true
  else
    match hay with
    | [] => false
    | _ :: t => hasSubstr t needle

/-- Number of positions of `hay` at which `needle` occurs (used only by the
spec-worded scoring model; the code itself never counts occurrences). -/
def countOcc (hay needle : Str) : Nat :=
  match hay with
  | [] => if startsWithStr [] needle then 1 else 0
  | _ :: t => (if startsWithStr hay needle then 1 else 0) + countOcc t needle

/-- Lowercase a string character-wise (`s.toLowerCase()` restricted to the
ASCII letters that matter for the `[a-z]` and Hangul token classes). -/
def lowerStr (s : Str) : Str := s.map Char.toLower

/-- A Hangul syllable, the `[가-힣]` character class. -/
def isHangulSyllable (c : Char) : Bool :=
  0xac00 ≤ c.val && c.val ≤ 0xd7a3

/-- A Latin letter, the `[a-z]` class under the `i` flag. -/
def isLatinLetter (c : Char) : Bool :=
  ('a' ≤ c && c ≤ 'z') || ('A' ≤ c && c ≤ 'Z')

/-- Maximal runs matching `/[가-힣]+|[a-z]+/gi`, with the remaining text
length as structural fuel (every step strictly shortens the text, so the
fuel never runs out when initialised with the text length). -/
def tokenizeF : Nat → Str → List Str
  | 0, _ => []
  | _ + 1, [] => []
  | fuel + 1, c :: cs =>
    if isHangulSyllable c then
      (c :: cs.takeWhile isHangulSyllable) :: tokenizeF fuel (cs.dropWhile isHangulSyllable)
    else if isLatinLetter c then
      (c :: cs.takeWhile isLatinLetter) :: tokenizeF fuel (cs.dropWhile isLatinLetter)
    else
      tokenizeF fuel cs

/-- Maximal runs matching `/[가-힣]+|[a-z]+/gi`: alternating maximal
runs of Hangul syllables and Latin letters, other characters skipped. -/
def tokenize (s : Str) : List Str := tokenizeF s.length s

/-- Keyword extraction from `findRelevantResources` /
`findRelevantSubDocuments`: tokens of the lowercased question whose length
exceeds 1. -/
def extractKeywords (question : Str) : List Str :=
  (tokenize (lowerStr question)).filter (fun w => w.length > 1)

/-- Stable insertion into a list sorted by descending score: the new element
goes before the first element whose score is not larger.  This realises the
stable `Array.prototype.sort` with comparator `(a, b) => b.score - a.score`. -/
def insertByScoreDesc {α : Type} (x : Nat × α) : List (Nat × α) → List (Nat × α)
  | [] => [x]
  | y :: ys => if y.1 > x.1 then y :: insertByScoreDesc x ys else x :: y :: ys

/-- Stable sort by descending score. -/
def sortByScoreDesc {α : Type} (l : List (Nat × α)) : List (Nat × α) :=
  l.foldr insertByScoreDesc []

/-- The scoring loop of `findRelevantResources`: each keyword contained in
the lowercased path contributes its length once. -/
def scoreByPath (keywords : List Str) (path : Str) : Nat :=
  let pathLower := lowerStr path
  keywords.foldl (fun s k => if hasSubstr pathLower k then s + k.length else s) 0

/-- A `{path, formats}` entry of a tool result's resource listing. -/
structure ResourceRef where
  path : Str
  formats : List Str
deriving DecidableEq

/-- Embeds `findRelevantResources(question, resources, maxResults)`: keyword-score
the resources by path, sort by descending score (stably) and keep the first
`maxResults`; with no keywords, keep the first `maxResults` unscored. -/
def findRelevantResources (question : Str) (resources : List ResourceRef)
    (maxResults : Nat) : List ResourceRef :=
  let keywords := extractKeywords question
  if keywords.length = 0 then
    resources.take maxResults
  else
    let scored := resources.map (fun r => (scoreByPath keywords r.path, r))
    ((sortByScoreDesc scored).take maxResults).map Prod.snd

/-- Scoring as the claim words it: every occurrence of a keyword in the path
contributes the keyword's length (occurrence counting, not containment). -/
def specScoreByPath (keywords : List Str) (path : Str) : Nat :=
  let pathLower := lowerStr path
  keywords.foldl (fun s k => s + countOcc pathLower k * k.length) 0

/-- The claim's description of `findRelevantResources`, with
occurrence-count scoring; compared against the source model. -/
def findRelevantResourcesSpecScored (question : Str) (resources : List ResourceRef)
    (maxResults : Nat) : List ResourceRef :=
  let keywords := extractKeywords question
  let scored := resources.map (fun r => (specScoreByPath keywords r.path, r))
  ((sortByScoreDesc scored).take maxResults).map Prod.snd

/-- Scoring as the code actually behaves, worded independently of the code's
fold: a keyword that occurs at least once in the path contributes its length
exactly once. -/
def amendedScoreByPath (keywords : List Str) (path : Str) : Nat :=
  let pathLower := lowerStr path
  keywords.foldl (fun s k => s + (if countOcc pathLower k > 0 then k.length else 0)) 0

/-- The amended description of `findRelevantResources`: containment scoring,
stable descending sort, first `maxResults` kept; the empty-keyword case needs
no special branch because all scores are then equal and the sort is stable. -/
def findRelevantResourcesAmended (question : Str) (resources : List ResourceRef)
    (maxResults : Nat) : List ResourceRef :=
  let keywords := extractKeywords question
  let scored := resources.map (fun r => (amendedScoreByPath keywords r.path, r))
  ((sortByScoreDesc scored).take maxResults).map Prod.snd

/-- Embeds `s.split(sep)` for a single-character separator. -/
def splitOnChar (sep : Char) : Str → List Str
  | [] => [[]]
  | c :: cs =>
    let r := splitOnChar sep cs
    if c = sep then [] :: r
    else
      match r with
      | [] => [[c]]
      | l :: ls => (c :: l) :: ls

/-- Embeds `parts.join(ch)` for a single-character separator. -/
def joinWithChar (ch : Char) : List Str → Str
  | [] => []
  | [l] => l
  | l :: ls => l ++ ch :: joinWithChar ch ls

/-- Embeds `texts.join('\n')`. -/
def joinNl (ls : List Str) : Str := joinWithChar '\n' ls

/-- Maximal runs of characters satisfying `p`, fuelled like `tokenizeF`. -/
def charRunsF (p : Char → Bool) : Nat → Str → List Str
  | 0, _ => []
  | _ + 1, [] => []
  | fuel + 1, c :: cs =>
    if p c then (c :: cs.takeWhile p) :: charRunsF p fuel (cs.dropWhile p)
    else charRunsF p fuel cs

/-- Maximal runs of characters satisfying `p` (the `/\d+/g` style match). -/
def charRuns (p : Char → Bool) (s : Str) : List Str := charRunsF p s.length s

/-- Embeds `parseInt` on a run of decimal digits. -/
def digitsToNat (run : Str) : Nat :=
  run.foldl (fun a c => a * 10 + (c.toNat - ('0').toNat)) 0

/-- All embedded integers of a string, in order (`text.match(/\d+/g)`
followed by `parseInt`). -/
def extractDigitRuns (s : Str) : List Nat :=
  (charRuns Char.isDigit s).map digitsToNat

/-- Embeds `content.trim().startsWith('{') || content.trim().startsWith('[')`:
the "looks like JSON" test of the content extractor. -/
def startsJson (s : Str) : Bool :=
  match trimJs s with
  | c :: _ => c = '{' || c = '['
  | [] => false

/-- An item of a raw MCP tool result's `content` array; only `text`-typed
items carry data the extractor reads. -/
inductive ContentItem where
  | textItem (t : Str)
  | otherItem
deriving DecidableEq

/-- The value returned by `McpClientService.callTool` after its parsing
pass: the non-listing text blocks, the raw `content` items, the raw result
pretty-printed (`JSON.stringify(raw, null, 2)`, carried as data), and the
`resources` entries pre-filtered to those whose formats include png/pdf. -/
structure CallToolParsed where
  texts : List Str
  rawContentItems : List ContentItem
  rawPretty : Str
  filteredResources : List ResourceRef
deriving DecidableEq

/-- String literals used throughout the pipeline. -/
def mdStr : Str := ("md").toList

def pdfStr : Str := ("pdf").toList

def pngStr : Str := ("png").toList

/-- Embeds `extractContentFromToolResult`: prefer the joined `texts` block when it
is nonempty and does not look like JSON; otherwise concatenate the
`text`-typed raw content items that do not look like JSON; else empty. -/
def extractContentFromToolResult (tr : CallToolParsed) : Str :=
  let joined := joinNl tr.texts
  let firstBranch : Option Str :=
    if tr.texts.length > 0 then
      if joined ≠ [] ∧ ¬startsJson joined then some joined else none
    else none
  match firstBranch with
  | some c => c
  | none =>
    let textContents := tr.rawContentItems.foldl
      (fun acc item =>
        match item with
        | ContentItem.textItem t =>
          if t ≠ [] ∧ ¬startsJson t then acc ++ [t] else acc
        | ContentItem.otherItem => acc)
      []
    if textContents.length > 0 then joinNl textContents else []

/-- Embeds `/^[a-z0-9]+$/i` on a single character. -/
def isAsciiAlnum (c : Char) : Bool :=
  ('a' ≤ c && c ≤ 'z') || ('A' ≤ c && c ≤ 'Z') || ('0' ≤ c && c ≤ '9')

/-- Embeds `path.lastIndexOf('.')` when the character occurs. -/
def lastIndexOfChar (c : Char) (l : Str) : Option Nat :=
  match l.reverse.findIdx? (fun x => x = c) with
  | some k => some (l.length - 1 - k)
  | none => none

/-- Embeds `normalizeResourcePath`: strip a trailing extension of at most five
alphanumeric characters, since the MCP server resolves the format itself. -/
def normalizeResourcePath (p : Str) : Str :=
  match lastIndexOfChar '.' p with
  | some i =>
    let ext := p.drop (i + 1)
    if ext.length ≤ 5 ∧ ext ≠ [] ∧ ext.all isAsciiAlnum then p.take i else p
  | none => p

/-- Embeds `extractDocumentTitle(path, originalPath, formats)`: the last
slash-separated component of the original path (falling back over empty
values), with `.md` appended when the title has no extension but the formats
include markdown. -/
def extractDocumentTitle (path originalPath : Str) (formats : List Str) : Str :=
  let pathToUse := if originalPath = [] then path else originalPath
  let parts := splitOnChar '/' pathToUse
  let lastPart := parts.getLastD []
  let title := if lastPart = [] then pathToUse else lastPart
  if ¬title.contains '.' ∧ formats.contains mdStr then title ++ (".md").toList
  else title

/-- A `{path, description}` cross-reference found inside a document. -/
structure SubDocRef where
  path : Str
  description : Str
deriving DecidableEq

/-- Consume a literal at the head of a string, returning the rest. -/
def dropLit (lit l : Str) : Option Str :=
  if startsWithStr l lit then some (l.drop lit.length) else none

/-- Match `<document\s+path="([^"]+)"\s+description="([^"]+)"><\/document>`
at the head of the string, returning the captures and the remaining text. -/
def matchDocTag (l : Str) : Option (SubDocRef × Str) := do
  let r1 ← dropLit ("<document").toList l
  let ws1 := r1.takeWhile isJsWs
  if ws1 = [] then none else
  let r2 := r1.dropWhile isJsWs
  let r3 ← dropLit ("path=\"").toList r2
  let p := r3.takeWhile (fun c => c ≠ '"')
  if p = [] then none else
  let r4 := r3.dropWhile (fun c => c ≠ '"')
  let r5 ← dropLit ("\"").toList r4
  let ws2 := r5.takeWhile isJsWs
  if ws2 = [] then none else
  let r6 := r5.dropWhile isJsWs
  let r7 ← dropLit ("description=\"").toList r6
  let d := r7.takeWhile (fun c => c ≠ '"')
  if d = [] then none else
  let r8 := r7.dropWhile (fun c => c ≠ '"')
  let r9 ← dropLit ("\"></document>").toList r8
  some (⟨p, d⟩, r9)

/-- Left-to-right, non-overlapping scan for document tags (the global-regex
`exec` loop); the fuel is the remaining text length, which every step
strictly decreases. -/
def scanDocumentLinks : Nat → Str → List SubDocRef
  | 0, _ => []
  | _ + 1, [] => []
  | fuel + 1, c :: cs =>
    match matchDocTag (c :: cs) with
    | some (d, rest) => d :: scanDocumentLinks fuel rest
    | none => scanDocumentLinks fuel cs

/-- Embeds `parseDocumentLinks(content)`: every embedded document tag, in order. -/
def parseDocumentLinks (content : Str) : List SubDocRef :=
  scanDocumentLinks content.length content

/-- The scoring loop of `findRelevantSubDocuments`: a keyword contained in
the path weighs twice its length, one contained in the description weighs
its length once; both can fire for the same keyword. -/
def scoreSubDocument (keywords : List Str) (doc : SubDocRef) : Nat :=
  let pathLower := lowerStr doc.path
  let descLower := lowerStr doc.description
  keywords.foldl
    (fun s k =>
      let s1 := if hasSubstr pathLower k then s + k.length * 2 else s
      if hasSubstr descLower k then s1 + k.length else s1)
    0

/-- Embeds `findRelevantSubDocuments(question, documents, maxResults)`. -/
def findRelevantSubDocuments (question : Str) (documents : List SubDocRef)
    (maxResults : Nat) : List SubDocRef :=
  let keywords := extractKeywords question
  if keywords.length = 0 then
    documents.take maxResults
  else
    let scored := documents.map (fun d => (scoreSubDocument keywords d, d))
    ((sortByScoreDesc scored).take maxResults).map Prod.snd

/-- A `{title, content, path}` triple handed to the relevance re-ranking. -/
structure SelectableDoc where
  title : Str
  content : Str
  path : Str
deriving DecidableEq

/-- The "select none" marker `없음`. -/
def noneMarker : Str := ("없음").toList

/-- Number parsing of the re-ranking response: all embedded integers,
shifted to 0-based indices and kept only when in range. -/
def selectionIndices (selectedText : Str) (len : Nat) : List Int :=
  ((extractDigitRuns selectedText).map (fun n => (n : Int) - 1)).filter
    (fun k => 0 ≤ k ∧ k < (len : Int))

/-- Embeds `selectMostRelevantDocuments(question, documents)` with the model call's
outcome made explicit: singleton lists skip the model; a thrown call keeps
every document; a `없음` response keeps none; a response without in-range
numbers keeps the first three; otherwise the first three referenced
documents are kept. -/
def selectMostRelevantDocuments (documents : List SelectableDoc)
    (llm : Except Unit Str) : List SelectableDoc :=
  if documents.length = 0 then []
  else if documents.length = 1 then documents
  else
    match llm with
    | Except.error _ => documents
    | Except.ok responseText =>
      let selectedText := trimJs responseText
      if hasSubstr (lowerStr selectedText) noneMarker then []
      else
        let numbers := selectionIndices selectedText documents.length
        if numbers.length = 0 then documents.take 3
        else
          let limitedNumbers := numbers.take 3
          limitedNumbers.filterMap (fun k => documents.get? k.toNat)

/-- A candidate document during the filtering pipeline. -/
structure DocumentCandidate where
  title : Str
  content : Str
  path : Str
  formats : List Str
  subDocuments : List SubDocRef
deriving DecidableEq

/-- The outcome of `fetchRelevantResourceContents`. -/
structure FetchedRelevant where
  content : Str
  usedResources : List ResourceRef
deriving DecidableEq

/-- Keep only the `pdf`/`png` entries of a format list. -/
def filterPdfPng (formats : List Str) : List Str :=
  formats.filter (fun f => f = pdfStr || f = pngStr)

/-- One iteration of the candidate-building loop: fetch the resource
through `get_resource` (errors logged and skipped) and keep it when its
extracted content is nonempty, recording its embedded sub-documents. -/
def buildCandidateStep (fetchDoc : Str → Except Unit CallToolParsed)
    (acc : List DocumentCandidate) (r : ResourceRef) : List DocumentCandidate :=
  match fetchDoc (normalizeResourcePath r.path) with
  | Except.error _ => acc
  | Except.ok tr =>
    let content := extractContentFromToolResult tr
    if content ≠ [] then
      acc ++ [{ title := extractDocumentTitle (normalizeResourcePath r.path) r.path r.formats,
                content := content,
                path := r.path,
                formats := r.formats,
                subDocuments := parseDocumentLinks content }]
    else acc

/-- The candidate-building loop of `fetchRelevantResourceContents`.
`fetchDoc` is the `callTool` oracle for `get_resource`. -/
def buildCandidates (rs : List ResourceRef)
    (fetchDoc : Str → Except Unit CallToolParsed) : List DocumentCandidate :=
  rs.foldl (buildCandidateStep fetchDoc) []

/-- The `## 리소스` block emitted per selected document. -/
def resourceBlock (dc : DocumentCandidate) : Str :=
  ("\n\n## 리소스: ").toList ++ dc.title ++ ("\n\n").toList ++ dc.content

/-- Accumulator of the selected-document loop. -/
structure CollectAcc where
  contents : List Str
  used : List ResourceRef
  allSub : List SubDocRef
deriving DecidableEq

/-- One iteration of the selected-document loop: look the selection up
among the candidates by title, emit its resource block, record it as a used
resource only when its formats include pdf or png (restricted to those
formats), and gather its sub-documents. -/
def collectSelectedStep (cands : List DocumentCandidate)
    (acc : CollectAcc) (sel : SelectableDoc) : CollectAcc :=
  match cands.find? (fun d => d.title = sel.title) with
  | none => acc
  | some dc =>
    let acc1 := { acc with contents := acc.contents ++ [resourceBlock dc] }
    let acc2 :=
      if dc.formats.contains pdfStr || dc.formats.contains pngStr then
        { acc1 with used := acc1.used ++ [⟨dc.path, filterPdfPng dc.formats⟩] }
      else acc1
    if dc.subDocuments.length > 0 then
      { acc2 with allSub := acc2.allSub ++ dc.subDocuments }
    else acc2

/-- The selected-document loop of `fetchRelevantResourceContents`. -/
def collectSelected (cands : List DocumentCandidate)
    (selected : List SelectableDoc) : CollectAcc :=
  selected.foldl (collectSelectedStep cands) ⟨[], [], []⟩

/-- The `## 하위 문서` block emitted per fetched sub-document. -/
def subDocBlock (title description content : Str) : Str :=
  ("\n\n## 하위 문서: ").toList ++ title ++ ("\n\n**설명**: ").toList ++
    description ++ ("\n\n").toList ++ content

/-- Embeds `fetchSubDocumentContents`: fetch each sub-document, skipping failures
and empty contents, and join the blocks with newlines. -/
def fetchSubDocumentContents (subs : List SubDocRef)
    (fetchDoc : Str → Except Unit CallToolParsed) : Str :=
  let contents := subs.foldl
    (fun acc doc =>
      match fetchDoc (normalizeResourcePath doc.path) with
      | Except.error _ => acc
      | Except.ok tr =>
        let content := extractContentFromToolResult tr
        if content ≠ [] then
          acc ++ [subDocBlock
            (extractDocumentTitle (normalizeResourcePath doc.path) doc.path [mdStr])
            doc.description content]
        else acc)
    []
  joinNl contents

/-- The header of the related sub-document section. -/
def subDocumentSection (subContent : Str) : Str :=
  ("\n\n---\n\n## 관련 하위 문서\n").toList ++ subContent

/-- Embeds `fetchRelevantResourceContents(question, filteredResources)`: keep the
markdown-formatted resources, keyword-select the top five, fetch and extract
their contents, let the model re-rank them, emit the selected documents'
blocks plus up to three relevant sub-documents, and report the pdf/png
resources actually used.  `fetchDoc` is the `get_resource` oracle and `llm`
the re-ranking model call's outcome. -/
def fetchRelevantResourceContents (question : Str)
    (filteredResources : List ResourceRef)
    (fetchDoc : Str → Except Unit CallToolParsed)
    (llm : Except Unit Str) : FetchedRelevant :=
  if filteredResources.length = 0 then ⟨[], []⟩
  else
    let mdResources := filteredResources.filter (fun r => r.formats.contains mdStr)
    if mdResources.length = 0 then ⟨[], []⟩
    else
      let relevantResources := findRelevantResources question mdResources 5
      if relevantResources.length = 0 then ⟨[], []⟩
      else
        let documentCandidates := buildCandidates relevantResources fetchDoc
        if documentCandidates.length = 0 then ⟨[], []⟩
        else
          let selectedDocuments := selectMostRelevantDocuments
            (documentCandidates.map (fun d => ⟨d.title, d.content, d.path⟩)) llm
          if selectedDocuments.length = 0 then ⟨[], []⟩
          else
            let step := collectSelected documentCandidates selectedDocuments
            let contents :=
              if step.allSub.length > 0 then
                let relevantSub := findRelevantSubDocuments question step.allSub 3
                if relevantSub.length > 0 then
                  let subContent := fetchSubDocumentContents relevantSub fetchDoc
                  if subContent ≠ [] then step.contents ++ [subDocumentSection subContent]
                  else step.contents
                else step.contents
              else step.contents
            ⟨joinNl contents, step.used⟩

/-- System prompt used when no relevant materials were found
(`error-messages.prompt.ts`). -/
def NO_RELEVANT_MATERIALS_SYSTEM_PROMPT : Str :=
  ("사용자의 질문에 답변하기 위해 필요한 관련 자료를 찾을 수 없습니다. 정중하게 관련 자료가 없어서 답변을 드릴 수 없다고 안내하세요.").toList

/-- System prompt used when no MCP tools are available
(`error-messages.prompt.ts`). -/
def NO_TOOLS_AVAILABLE_SYSTEM_PROMPT : Str :=
  ("사용할 수 있는 MCP 도구가 없으므로, 질문에 답변할 수 없습니다. 모른다고 대답하세요.").toList

/-- Modelled from the spec: the system prompt of the grounded final-answer
path.  Its defining file is imported by the orchestration service but is not
under `src/`; its exact text decides no claim here, only its identity as the
tool-result-augmented path marker. -/
def FINAL_RESPONSE_SYSTEM_PROMPT : Str :=
  ("FINAL_RESPONSE_SYSTEM_PROMPT").toList

/-- A client-facing citation (`ResourceInfo`). -/
structure ResourceInfo where
  path : Str
  formats : List Str
  url : Str
deriving DecidableEq

/-- The per-call result produced by the tool executor. -/
structure ToolExecutionResult where
  tool_call_id : Str
  name : Str
  content : Str
  resources : List ResourceInfo
  hadReferenceContent : Bool
deriving DecidableEq

/-- A parsed tool call request. -/
structure ToolCallRequest where
  id : Str
  name : Str
  argumentsJson : Str
deriving DecidableEq

/-- The tool name whose results go through the document filter. -/
def listResourcesName : Str := ("list_resources").toList

/-- The client-facing citation built from one used resource: pdf/png
formats only, the document title annotated with the format, and the URL
generated from the path (`urlOf` models `encodeURIComponent` in
`generateResourceUrl`). -/
def resourceInfoOfRef (urlOf : Str → Str) (r : ResourceRef) : ResourceInfo :=
  let pdfPngFormats := filterPdfPng r.formats
  let documentTitle := extractDocumentTitle r.path r.path pdfPngFormats
  let titleWithFormat :=
    if pdfPngFormats.contains pdfStr then documentTitle ++ (" (PDF)").toList
    else if pdfPngFormats.contains pngStr then documentTitle ++ (" (PNG)").toList
    else documentTitle
  ⟨titleWithFormat, pdfPngFormats, urlOf r.path⟩

/-- One iteration of the citation loop of `executeToolWithTimeout`: keep a
used resource only when its path is truthy and it retains pdf/png formats. -/
def buildResourceInfoStep (urlOf : Str → Str) (acc : List ResourceInfo)
    (r : ResourceRef) : List ResourceInfo :=
  if r.path ≠ [] then
    if (filterPdfPng r.formats).length > 0 then acc ++ [resourceInfoOfRef urlOf r]
    else acc
  else acc

/-- The citation loop of `executeToolWithTimeout`. -/
def buildResourceInfos (urlOf : Str → Str) (usedResources : List ResourceRef) :
    List ResourceInfo :=
  usedResources.foldl (buildResourceInfoStep urlOf) []

/-- The body of `executeToolWithTimeout` (its `executePromise`): run the
tool call, and for `list_resources` with a nonempty question and candidate
resources run the document filter, appending its content and marking
`hadReferenceContent` only when actual content was attached; finally turn
the used resources into client-facing pdf/png citations. -/
def executeToolCore (tc : ToolCallRequest) (question : Str)
    (callRes : CallToolParsed)
    (fetchDoc : Str → Except Unit CallToolParsed)
    (llm : Except Unit Str)
    (urlOf : Str → Str) : ToolExecutionResult :=
  let joined := joinNl callRes.texts
  let resultText0 := if joined = [] then callRes.rawPretty else joined
  let step :=
    if tc.name = listResourcesName ∧ question ≠ [] ∧
        callRes.filteredResources.length > 0 then
      let relevantResult := fetchRelevantResourceContents question
        callRes.filteredResources fetchDoc llm
      if trimJs relevantResult.content ≠ [] then
        (resultText0 ++ ("\n\n").toList ++ relevantResult.content,
          relevantResult.usedResources, true)
      else (resultText0, ([] : List ResourceRef), false)
    else (resultText0, ([] : List ResourceRef), false)
  ⟨tc.id, tc.name, step.1, buildResourceInfos urlOf step.2.1, step.2.2⟩

/-- Embeds `TOOL_EXECUTION_TIMEOUT` (30 seconds, in milliseconds). -/
def TOOL_EXECUTION_TIMEOUT : Nat := 30 * 1000

/-- How a tool call's promise behaves in time: settle with a result after
`t` milliseconds, reject after `t` milliseconds, or never settle. -/
inductive ToolRunOutcome where
  | completes (t : Nat) (r : ToolExecutionResult)
  | throwsAt (t : Nat) (msg : Str)
  | neverResolves
deriving DecidableEq

/-- The timer's rejection message. -/
def timeoutMessage (name : Str) : Str :=
  ("Tool execution timeout: ").toList ++ name

/-- Embeds `Promise.race([executePromise, timeoutPromise])`: the execution's own
settlement wins before the timeout fires, otherwise the timer rejects; the
second component is the instant the race settles. -/
def raceWithTimeout (tc : ToolCallRequest) (o : ToolRunOutcome) :
    Except Str ToolExecutionResult × Nat :=
  match o with
  | ToolRunOutcome.completes t r =>
    if t < TOOL_EXECUTION_TIMEOUT then (Except.ok r, t)
    else (Except.error (timeoutMessage tc.name), TOOL_EXECUTION_TIMEOUT)
  | ToolRunOutcome.throwsAt t m =>
    if t < TOOL_EXECUTION_TIMEOUT then (Except.error m, t)
    else (Except.error (timeoutMessage tc.name), TOOL_EXECUTION_TIMEOUT)
  | ToolRunOutcome.neverResolves =>
    (Except.error (timeoutMessage tc.name), TOOL_EXECUTION_TIMEOUT)

/-- The `.catch` handler attached per tool call in
`processUserQuestionStream` step 5: any rejection becomes a synthesized
failure result. -/
def synthesizeFailure (tc : ToolCallRequest) (msg : Str) : ToolExecutionResult :=
  { tool_call_id := tc.id,
    name := tc.name,
    content := ("Tool execution failed: ").toList ++ msg,
    resources := [],
    hadReferenceContent := false }

/-- One tool call as the orchestrator runs it: raced against the timer, with
rejections caught and synthesized.  `outcomeOf` assigns every call its
promise behaviour. -/
def runToolCallCaught (outcomeOf : ToolCallRequest → ToolRunOutcome)
    (tc : ToolCallRequest) : ToolExecutionResult :=
  match (raceWithTimeout tc (outcomeOf tc)).1 with
  | Except.ok r => r
  | Except.error m => synthesizeFailure tc m

/-- Embeds `toolCalls.map(executeToolWithTimeout ...)` joined by `Promise.all`. -/
def executeToolBatch (outcomeOf : ToolCallRequest → ToolRunOutcome)
    (calls : List ToolCallRequest) : List ToolExecutionResult :=
  calls.map (runToolCallCaught outcomeOf)

/-- A conversation message handed to the model. -/
structure ChatMessage where
  role : Str
  content : Str
deriving DecidableEq

/-- A tool-result message forwarded to the final answer generation. -/
structure ToolMessage where
  tool_call_id : Str
  name : Str
  content : Str
deriving DecidableEq

/-- The final model call issued by the orchestrator: which system prompt,
which tool results and which client-facing resources accompany the history
and question. -/
structure FinalCall where
  systemPrompt : Str
  history : List ChatMessage
  question : Str
  toolResults : List ToolMessage
  resources : List ResourceInfo
deriving DecidableEq

/-- The refusal-stream call: canned no-relevant-materials system prompt, no
tool results, empty resource list. -/
def noMaterialsCall (history : List ChatMessage) (question : Str) : FinalCall :=
  { systemPrompt := NO_RELEVANT_MATERIALS_SYSTEM_PROMPT,
    history := history,
    question := question,
    toolResults := [],
    resources := [] }

/-- The per-result projection pushed onto `toolResults` in step 5. -/
def collectToolResults (results : List ToolExecutionResult) : List ToolMessage :=
  results.map (fun r => ⟨r.tool_call_id, r.name, r.content⟩)

/-- The accumulation of `allResources` in step 5: each result's resources
are appended when nonempty. -/
def collectAllResources (results : List ToolExecutionResult) : List ResourceInfo :=
  results.foldl
    (fun acc r => if r.resources.length > 0 then acc ++ r.resources else acc)
    []

/-- Step 5.5 and 6 of `processUserQuestionStream`: without grounding (no
result had reference content and no resources accumulated) the refusal
stream is issued with no tool results and an empty resource list; otherwise
the final answer call carries the tool results and all resources. -/
def answerPhase (history : List ChatMessage) (question : Str)
    (results : List ToolExecutionResult) : FinalCall :=
  let toolResults := collectToolResults results
  let allResources := collectAllResources results
  let anyHadReferenceContent := results.any (fun r => r.hadReferenceContent)
  let hasReferenceContent := decide (allResources.length > 0) || anyHadReferenceContent
  if hasReferenceContent then
    { systemPrompt := FINAL_RESPONSE_SYSTEM_PROMPT,
      history := history,
      question := question,
      toolResults := toolResults,
      resources := allResources }
  else
    noMaterialsCall history question

/-- The options handed to `selectTool`: `temperature` (with its 0.3 default
applied) and the strict-prompt flag. -/
structure SelectionOptions where
  temperature : ℚ
  emphasizeToolUsage : Bool
deriving DecidableEq

/-- Attempt 1 passes no options, so `selectTool` defaults to
temperature 0.3 without the strict prompt. -/
def defaultSelectionOptions : SelectionOptions :=
  { temperature := 3 / 10, emphasizeToolUsage := false }

/-- Attempt 2 passes temperature 0.1 with the strict prompt. -/
def retrySelectionOptions : SelectionOptions :=
  { temperature := 1 / 10, emphasizeToolUsage := true }

/-- The fixed 500 ms backoff between selection attempts. -/
def SELECTION_RETRY_BACKOFF_MS : Nat := 500

/-- The observable trace of the tool-selection loop. -/
structure SelectionTrace where
  toolCalls : List ToolCallRequest
  attemptsMade : Nat
  optionsUsed : List SelectionOptions
  backoffWaitsMs : List Nat
deriving DecidableEq

/-- The selection loop of `processUserQuestionStream` step 3 ( ≤ 2
attempts): a first attempt yielding calls ends the loop; a first attempt
yielding none, or throwing, waits 500 ms and retries once with the strict
options; a throw on the last attempt leaves the previous (empty) call list
in place.  Outcomes are `Except Unit (List ToolCallRequest)`: a throwing
API call is `Except.error`. -/
def selectToolWithRetry (o1 o2 : Except Unit (List ToolCallRequest)) :
    SelectionTrace :=
  match o1 with
  | Except.ok calls1 =>
    if calls1.length > 0 then
      ⟨calls1, 1, [defaultSelectionOptions], []⟩
    else
      match o2 with
      | Except.ok calls2 =>
        ⟨calls2, 2, [defaultSelectionOptions, retrySelectionOptions],
          [SELECTION_RETRY_BACKOFF_MS]⟩
      | Except.error _ =>
        ⟨calls1, 2, [defaultSelectionOptions, retrySelectionOptions],
          [SELECTION_RETRY_BACKOFF_MS]⟩
  | Except.error _ =>
    match o2 with
    | Except.ok calls2 =>
      ⟨calls2, 2, [defaultSelectionOptions, retrySelectionOptions],
        [SELECTION_RETRY_BACKOFF_MS]⟩
    | Except.error _ =>
      ⟨[], 2, [defaultSelectionOptions, retrySelectionOptions],
        [SELECTION_RETRY_BACKOFF_MS]⟩

/-- Step 4 of `processUserQuestionStream`: with no selected tool the
pipeline short-circuits to the refusal stream; otherwise it continues
(`none`). -/
def afterToolSelection (history : List ChatMessage) (question : Str)
    (toolCalls : List ToolCallRequest) : Option FinalCall :=
  if toolCalls.length = 0 then some (noMaterialsCall history question) else none

/-- An MCP tool entry as cached by the orchestrator. -/
structure McpToolRec where
  name : Str
  description : Str
  inputSchema : Option Str
deriving DecidableEq

/-- A raw item of the backend's tool list (description may be absent). -/
structure RawToolItem where
  name : Str
  description : Option Str
  inputSchema : Option Str
deriving DecidableEq

/-- The cache fields of `ChatOrchestrationService`. -/
structure ToolsCacheState where
  cachedTools : Option (List McpToolRec)
  cachedToolsTimestamp : Nat
deriving DecidableEq

/-- Embeds `TOOLS_CACHE_TTL` (5 minutes, in milliseconds). -/
def TOOLS_CACHE_TTL : Nat := 5 * 60 * 1000

instance {ε α : Type} [DecidableEq ε] [DecidableEq α] : DecidableEq (Except ε α) :=
  fun a b =>
    match a, b with
    | Except.error e1, Except.error e2 =>
      if h : e1 = e2 then isTrue (by rw [h])
      else isFalse (by intro hh; cases hh; exact h rfl)
    | Except.error _, Except.ok _ => isFalse (by intro hh; cases hh)
    | Except.ok _, Except.error _ => isFalse (by intro hh; cases hh)
    | Except.ok v1, Except.ok v2 =>
      if h : v1 = v2 then isTrue (by rw [h])
      else isFalse (by intro hh; cases hh; exact h rfl)

/-- The observable outcome of one `getMcpTools` call: the returned (or
thrown) value, the cache state afterwards, and how many backend fetches
were performed. -/
structure GetToolsOutcome where
  result : Except Unit (List McpToolRec)
  state : ToolsCacheState
  fetchCount : Nat
deriving DecidableEq

/-- The mapping applied to a fetched tool list (missing descriptions become
empty). -/
def mapRawTools (items : List RawToolItem) : List McpToolRec :=
  items.map (fun t => ⟨t.name, t.description.getD [], t.inputSchema⟩)

/-- The refetch path of `getMcpTools`: a failed `listTools` propagates with
the cache untouched; a successful one replaces the cache and stamps it with
the current time. -/
def refetchTools (st : ToolsCacheState) (now : Nat)
    (fetched : Except Unit (List RawToolItem)) : GetToolsOutcome :=
  match fetched with
  | Except.error e => ⟨Except.error e, st, 1⟩
  | Except.ok items =>
    let mcpTools := mapRawTools items
    ⟨Except.ok mcpTools, ⟨some mcpTools, now⟩, 1⟩

/-- Embeds `getMcpTools`: return the cached list while it exists and is younger
than the TTL, otherwise refetch.  `now` is `Date.now()` and `fetched` the
`listTools` outcome (consulted only on a refetch). -/
def getMcpTools (st : ToolsCacheState) (now : Nat)
    (fetched : Except Unit (List RawToolItem)) : GetToolsOutcome :=
  match st.cachedTools with
  | some tools =>
    if now - st.cachedToolsTimestamp < TOOLS_CACHE_TTL then ⟨Except.ok tools, st, 0⟩
    else refetchTools st now fetched
  | none => refetchTools st now fetched

/-- The `usage` object captured from a streamed chunk. -/
structure SseUsage where
  prompt_tokens : Nat
  completion_tokens : Nat
  total_tokens : Nat
deriving DecidableEq

/-- What `JSON.parse` plus the field accesses of the consumer yield for one
`data:` payload: the delta content, the model name and the usage object,
each when present. -/
structure ParsedSse where
  contentDelta : Option Str
  modelName : Option Str
  usage : Option SseUsage

/-- The line-independent consumer state of `handleStreamingResponse`: the
accumulated answer, the captured model and usage, and the content frames
written to the client so far.  The line loop never touches the buffer. -/
structure StreamCore where
  accumulatedContent : Str
  modelName : Str
  usage : Option SseUsage
  frames : List Str

/-- The full consumer state: the core plus the partial-line buffer. -/
structure StreamAcc where
  core : StreamCore
  buffer : Str

/-- The initial consumer state. -/
def initialStreamAcc : StreamAcc :=
  { core := { accumulatedContent := [], modelName := [], usage := none, frames := [] },
    buffer := [] }

/-- Split a text into its complete lines and the trailing partial line
(`buffer.split('\n')` with the last piece popped back into the buffer). -/
def splitNl : Str → List Str × Str
  | [] => ([], [])
  | c :: cs =>
    let r := splitNl cs
    if c = '\n' then ([] :: r.1, r.2)
    else
      match r.1 with
      | [] => ([], c :: r.2)
      | l :: ls => ((c :: l) :: ls, r.2)

/-- The `[DONE]` sentinel payload. -/
def doneSentinel : Str := ("[DONE]").toList

/-- Processing of one complete line: only `data: ` lines are considered;
empty and `[DONE]` payloads are skipped; an unparsable payload is ignored;
otherwise a truthy delta is forwarded as a frame and accumulated, and truthy
`model`/`usage` fields are captured.  `pd` abstracts `JSON.parse` together
with the `choices[0].delta.content` access. -/
def lineStep (pd : Str → Option ParsedSse) (st : StreamCore) (line : Str) : StreamCore :=
  match line with
  | 'd' :: 'a' :: 't' :: 'a' :: ':' :: ' ' :: rest =>
    let data := trimJs rest
    if data = [] ∨ data = doneSentinel then st
    else
      match pd data with
      | none => st
      | some parsed =>
        let st1 :=
          match parsed.contentDelta with
          | some c =>
            if c ≠ [] then
              { st with accumulatedContent := st.accumulatedContent ++ c,
                        frames := st.frames ++ [c] }
            else st
          | none => st
        let st2 :=
          match parsed.modelName with
          | some m => if m ≠ [] then { st1 with modelName := m } else st1
          | none => st1
        match parsed.usage with
        | some u => { st2 with usage := some u }
        | none => st2
  | _ => st

/-- One `data` event of the stream consumer: append the chunk to the
buffer, split off the complete lines, keep the trailing partial line
buffered and process the complete lines. -/
def feedChunk (pd : Str → Option ParsedSse) (st : StreamAcc) (chunk : Str) : StreamAcc :=
  let r := splitNl (st.buffer ++ chunk)
  { core := r.1.foldl (lineStep pd) st.core, buffer := r.2 }

/-- Feeding a whole sequence of chunks. -/
def feedChunks (pd : Str → Option ParsedSse) (st : StreamAcc)
    (chunks : List Str) : StreamAcc :=
  chunks.foldl (feedChunk pd) st

/-! ## Theorems -/

/-- C1: if every tool execution result lacks reference content and no
resources accumulated, the answer stream is generated from the
no-relevant-materials system prompt with no tool results attached and an
empty resource list; tool results are forwarded to the final call only when
some result had reference content or contributed a resource. -/
theorem claim1_grounding_gate (history : List ChatMessage) (question : Str)
    (results : List ToolExecutionResult)
    (hNoRef : ∀ r ∈ results, r.hadReferenceContent = false)
    (hNoRes : collectAllResources results = []) :
    answerPhase history question results = noMaterialsCall history question ∧
    ∀ results2 : List ToolExecutionResult,
      (answerPhase history question results2).toolResults ≠ [] →
        (∃ r ∈ results2, r.hadReferenceContent = true) ∨
          collectAllResources results2 ≠ [] := by
  constructor
  · have h2 : results.any (fun r => r.hadReferenceContent) = false := by
      rw [List.any_eq_false]
      intro r hr
      simp [hNoRef r hr]
    simp [answerPhase, hNoRes, h2]
  · intro results2 hne
    by_cases hc : (decide ((collectAllResources results2).length > 0) ||
        results2.any (fun r => r.hadReferenceContent)) = true
    · rw [Bool.or_eq_true] at hc
      rcases hc with hc | hc
      · right
        have := of_decide_eq_true hc
        exact List.ne_nil_of_length_pos this
      · left
        simpa using List.any_eq_true.mp hc
    · exfalso
      apply hne
      have hbf : (decide ((collectAllResources results2).length > 0) ||
          results2.any (fun r => r.hadReferenceContent)) = false :=
        Bool.not_eq_true _ ▸ Bool.of_not_eq_true hc
      simp [answerPhase, hbf, noMaterialsCall]

/-- A concrete ungrounded tool execution result. -/
def claim1ResultW : ToolExecutionResult :=
  ⟨("id1").toList, ("list_resources").toList, ("raw echo").toList, [], false⟩

theorem claim1_witness :
    answerPhase [] ("질문").toList [claim1ResultW] = noMaterialsCall [] ("질문").toList :=
  (claim1_grounding_gate [] (("질문").toList) [claim1ResultW] (by decide) (by decide)).1

/-- Five concrete candidate documents for the re-ranking cap. -/
def claim3DocsW : List SelectableDoc :=
  [⟨("t1").toList, ("c1").toList, ("p1").toList⟩,
   ⟨("t2").toList, ("c2").toList, ("p2").toList⟩,
   ⟨("t3").toList, ("c3").toList, ("p3").toList⟩,
   ⟨("t4").toList, ("c4").toList, ("p4").toList⟩,
   ⟨("t5").toList, ("c5").toList, ("p5").toList⟩]

/-- C3 counterexample: with 5 candidate documents and a throwing model
call, `selectMostRelevantDocuments` returns all 5 documents, exceeding 3. -/
theorem claim3_counterexample :
    ¬ (selectMostRelevantDocuments claim3DocsW (Except.error ())).length ≤ 3 := by
  decide

/-- C3 (amended): whenever the relevance model call returns a response
(does not throw), `selectMostRelevantDocuments` returns at most 3
documents — in particular for 5 fetched candidates; only the
exception fallback returns all candidates. -/
theorem claim3_rerank_cap_amended (docs : List SelectableDoc) (s : Str) :
    (selectMostRelevantDocuments docs (Except.ok s)).length ≤ 3 := by
  unfold selectMostRelevantDocuments
  by_cases h0 : docs.length = 0
  · simp [h0]
  · by_cases h1 : docs.length = 1
    · simp [h0, h1]
    · simp only [h0, h1, if_false]
      by_cases hNone : hasSubstr (lowerStr (trimJs s)) noneMarker = true
      · simp [hNone]
      · rw [Bool.not_eq_true] at hNone
        simp only [hNone, Bool.false_eq_true, if_false]
        split
        · rw [List.length_take]
          exact Nat.min_le_left _ _
        · refine le_trans (List.length_filterMap_le _ _) ?_
          rw [List.length_take]
          exact Nat.min_le_left _ _

/-- C4: the failure modes of `selectMostRelevantDocuments`: a response
containing `없음` keeps nothing; a response without in-range numbers keeps
the first three documents; a thrown model call keeps every document; and a
single candidate is kept without consulting the model at all. -/
theorem claim4_rerank_failure_modes (docs : List SelectableDoc) (s : Str)
    (d : SelectableDoc) :
    (2 ≤ docs.length → hasSubstr (lowerStr (trimJs s)) noneMarker = true →
      selectMostRelevantDocuments docs (Except.ok s) = []) ∧
    (2 ≤ docs.length → hasSubstr (lowerStr (trimJs s)) noneMarker = false →
      selectionIndices (trimJs s) docs.length = [] →
      selectMostRelevantDocuments docs (Except.ok s) = docs.take 3) ∧
    (selectMostRelevantDocuments docs (Except.error ()) = docs) ∧
    (∀ llm : Except Unit Str, selectMostRelevantDocuments [d] llm = [d]) := by
  refine ⟨?_, ?_, ?_, ?_⟩
  · intro hlen hNone
    have h0 : ¬ docs.length = 0 := by omega
    have h1 : ¬ docs.length = 1 := by omega
    simp [selectMostRelevantDocuments, h0, h1, hNone]
  · intro hlen hNone hIdx
    have h0 : ¬ docs.length = 0 := by omega
    have h1 : ¬ docs.length = 1 := by omega
    simp [selectMostRelevantDocuments, h0, h1, hNone, hIdx]
  · by_cases h0 : docs.length = 0
    · have : docs = [] := List.length_eq_zero.mp h0
      subst this
      rfl
    · by_cases h1 : docs.length = 1
      · simp [selectMostRelevantDocuments, h0, h1]
      · simp [selectMostRelevantDocuments, h0, h1]
  · intro llm
    simp [selectMostRelevantDocuments]

theorem claim4_witness :
    selectMostRelevantDocuments claim3DocsW.tail
        (Except.ok (("관련 문서가 없음 입니다").toList)) = [] ∧
    selectMostRelevantDocuments claim3DocsW.tail
        (Except.ok (("no numbers here").toList)) = claim3DocsW.tail.take 3 :=
  ⟨(claim4_rerank_failure_modes claim3DocsW.tail
      (("관련 문서가 없음 입니다").toList) ⟨[], [], []⟩).1 (by decide) (by decide),
   (claim4_rerank_failure_modes claim3DocsW.tail
      (("no numbers here").toList) ⟨[], [], []⟩).2.1 (by decide) (by decide) (by decide)⟩

/-- C6: tool selection makes at most 2 attempts; attempt 1 runs with the
default options (temperature 0.3, no emphasis); an empty or throwing first
attempt waits 500 ms and retries once with temperature 0.1 and
`emphasizeToolUsage`; an API failure counts as zero calls and is never
propagated; and when both attempts yield nothing the pipeline falls back to
the no-relevant-materials stream. -/
theorem claim6_selection_retry (o1 o2 : Except Unit (List ToolCallRequest))
    (history : List ChatMessage) (question : Str) :
    (selectToolWithRetry o1 o2).attemptsMade ≤ 2 ∧
    (selectToolWithRetry o1 o2).optionsUsed.head? = some defaultSelectionOptions ∧
    defaultSelectionOptions.temperature = 3 / 10 ∧
    defaultSelectionOptions.emphasizeToolUsage = false ∧
    retrySelectionOptions.temperature = 1 / 10 ∧
    retrySelectionOptions.emphasizeToolUsage = true ∧
    SELECTION_RETRY_BACKOFF_MS = 500 ∧
    ((o1 = Except.ok [] ∨ o1 = Except.error ()) →
      (selectToolWithRetry o1 o2).attemptsMade = 2 ∧
      (selectToolWithRetry o1 o2).optionsUsed =
        [defaultSelectionOptions, retrySelectionOptions] ∧
      (selectToolWithRetry o1 o2).backoffWaitsMs = [SELECTION_RETRY_BACKOFF_MS]) ∧
    (∀ calls1, o1 = Except.ok calls1 → calls1.length > 0 →
      selectToolWithRetry o1 o2 = ⟨calls1, 1, [defaultSelectionOptions], []⟩) ∧
    selectToolWithRetry (Except.error ()) o2 = selectToolWithRetry (Except.ok []) o2 ∧
    (o1 = Except.ok [] → o2 = Except.ok [] →
      (selectToolWithRetry o1 o2).toolCalls = []) ∧
    (∀ toolCalls : List ToolCallRequest, toolCalls = [] →
      afterToolSelection history question toolCalls =
        some (noMaterialsCall history question)) := by
  refine ⟨?_, ?_, rfl, rfl, rfl, rfl, rfl, ?_, ?_, ?_, ?_, ?_⟩
  · rcases o1 with e1 | calls1 <;> rcases o2 with e2 | calls2 <;>
      simp [selectToolWithRetry] <;> split <;> simp
  · rcases o1 with e1 | calls1 <;> rcases o2 with e2 | calls2 <;>
      simp [selectToolWithRetry] <;> split <;> simp
  · intro h
    rcases h with h | h <;> subst h <;>
      rcases o2 with e2 | calls2 <;> simp [selectToolWithRetry]
  · intro calls1 h hpos
    subst h
    simp [selectToolWithRetry, hpos]
  · rcases o2 with e2 | calls2 <;> simp [selectToolWithRetry]
  · intro h1 h2
    subst h1; subst h2
    simp [selectToolWithRetry]
  · intro toolCalls h
    subst h
    simp [afterToolSelection]

theorem claim6_witness :
    (selectToolWithRetry (Except.ok []) (Except.ok [])).attemptsMade = 2 ∧
    (selectToolWithRetry (Except.ok []) (Except.ok [])).optionsUsed =
      [defaultSelectionOptions, retrySelectionOptions] ∧
    (selectToolWithRetry (Except.ok []) (Except.ok [])).backoffWaitsMs =
      [SELECTION_RETRY_BACKOFF_MS] :=
  (claim6_selection_retry (Except.ok []) (Except.ok []) [] []).2.2.2.2.2.2.2.1
    (Or.inl rfl)

/-- C9: `getMcpTools` returns the cached list with no fetch while the cache
exists and is younger than the 5-minute TTL; at or past expiry, or with an
unpopulated cache, it performs exactly one refetch that replaces the cache
and returns the new list; and a failed refetch propagates the error with
the cache (including its timestamp) unchanged. -/
theorem claim9_tools_cache (st : ToolsCacheState) (now : Nat)
    (fetched : Except Unit (List RawToolItem)) :
    TOOLS_CACHE_TTL = 300000 ∧
    (∀ ts, st.cachedTools = some ts →
      now - st.cachedToolsTimestamp < TOOLS_CACHE_TTL →
      getMcpTools st now fetched = ⟨Except.ok ts, st, 0⟩) ∧
    ((st.cachedTools = none ∨ TOOLS_CACHE_TTL ≤ now - st.cachedToolsTimestamp) →
      (getMcpTools st now fetched).fetchCount = 1 ∧
      (∀ items, fetched = Except.ok items →
        getMcpTools st now fetched =
          ⟨Except.ok (mapRawTools items), ⟨some (mapRawTools items), now⟩, 1⟩) ∧
      (∀ e, fetched = Except.error e →
        getMcpTools st now fetched = ⟨Except.error e, st, 1⟩)) := by
  refine ⟨rfl, ?_, ?_⟩
  · intro ts hts hlt
    simp [getMcpTools, hts, hlt]
  · intro h
    have hre : getMcpTools st now fetched = refetchTools st now fetched := by
      rcases hcase : st.cachedTools with _ | ts
      · simp [getMcpTools, hcase]
      · rcases h with h | h
        · rw [hcase] at h; cases h
        · have : ¬ now - st.cachedToolsTimestamp < TOOLS_CACHE_TTL := by omega
          simp [getMcpTools, hcase, this]
    refine ⟨?_, ?_, ?_⟩
    · rw [hre]
      rcases fetched with e | items <;> simp [refetchTools]
    · intro items hit
      subst hit
      rw [hre]
      simp [refetchTools]
    · intro e he
      subst he
      rw [hre]
      simp [refetchTools]

theorem claim9_witness :
    getMcpTools ⟨some [⟨("list_resources").toList, [], none⟩], 1000⟩ 2000
        (Except.error ()) =
      ⟨Except.ok [⟨("list_resources").toList, [], none⟩],
        ⟨some [⟨("list_resources").toList, [], none⟩], 1000⟩, 0⟩ :=
  (claim9_tools_cache ⟨some [⟨("list_resources").toList, [], none⟩], 1000⟩ 2000
      (Except.error ())).2.1 _ rfl (by decide)

/-- C2: every tool call is raced against the 30-second timer and settles
within it; a timed-out or throwing call is synthesized into a result whose
content is `Tool execution failed: <message>` with no resources and
`hadReferenceContent = false` (a never-settling call producing the timeout
message); and the batch maps each call independently, so one failure never
affects the other calls' results. -/
theorem claim2_timeout_isolation
    (outcomeOf : ToolCallRequest → ToolRunOutcome)
    (calls : List ToolCallRequest) (tc : ToolCallRequest) :
    TOOL_EXECUTION_TIMEOUT = 30000 ∧
    (raceWithTimeout tc (outcomeOf tc)).2 ≤ TOOL_EXECUTION_TIMEOUT ∧
    (∀ m, (raceWithTimeout tc (outcomeOf tc)).1 = Except.error m →
      runToolCallCaught outcomeOf tc =
        { tool_call_id := tc.id, name := tc.name,
          content := ("Tool execution failed: ").toList ++ m,
          resources := [], hadReferenceContent := false }) ∧
    (outcomeOf tc = ToolRunOutcome.neverResolves →
      (raceWithTimeout tc (outcomeOf tc)).1 =
        Except.error (timeoutMessage tc.name) ∧
      (raceWithTimeout tc (outcomeOf tc)).2 = TOOL_EXECUTION_TIMEOUT) ∧
    executeToolBatch outcomeOf calls = calls.map (runToolCallCaught outcomeOf) ∧
    (∀ i, (hi : i < calls.length) →
      (executeToolBatch outcomeOf calls).get? i =
        some (runToolCallCaught outcomeOf (calls.get ⟨i, hi⟩))) := by
  refine ⟨rfl, ?_, ?_, ?_, rfl, ?_⟩
  · cases outcomeOf tc with
    | completes t r =>
      simp only [raceWithTimeout]
      split
      next h => exact Nat.le_of_lt h
      next h => exact Nat.le_refl _
    | throwsAt t m =>
      simp only [raceWithTimeout]
      split
      next h => exact Nat.le_of_lt h
      next h => exact Nat.le_refl _
    | neverResolves => exact Nat.le_refl _
  · intro m hm
    unfold runToolCallCaught
    rw [hm]
    rfl
  · intro h
    rw [h]
    exact ⟨rfl, rfl⟩
  · intro i hi
    unfold executeToolBatch
    rw [List.get?_map, List.get?_eq_get hi]
    rfl

/-- A concrete tool call for the timeout witness. -/
def claim2CallW : ToolCallRequest :=
  ⟨("call_1").toList, ("list_resources").toList, []⟩

theorem claim2_witness :
    runToolCallCaught (fun _ => ToolRunOutcome.neverResolves) claim2CallW =
      { tool_call_id := claim2CallW.id, name := claim2CallW.name,
        content := ("Tool execution failed: ").toList ++
          timeoutMessage claim2CallW.name,
        resources := [], hadReferenceContent := false } :=
  (claim2_timeout_isolation (fun _ => ToolRunOutcome.neverResolves) [] claim2CallW).2.2.1
    (timeoutMessage claim2CallW.name) (by decide)

theorem countOcc_pos_iff (hay needle : Str) :
    0 < countOcc hay needle ↔ hasSubstr hay needle = true := by
  induction hay with
  | nil =>
    unfold countOcc hasSubstr
    cases h : startsWithStr [] needle <;> simp [h]
  | cons c t ih =>
    unfold countOcc hasSubstr
    cases h : startsWithStr (c :: t) needle <;> simp [h, ih]

theorem scoreByPath_eq_amended (keywords : List Str) (path : Str) :
    scoreByPath keywords path = amendedScoreByPath keywords path := by
  unfold scoreByPath amendedScoreByPath
  have h : ∀ (ks : List Str) (s : Nat),
      ks.foldl (fun s k => if hasSubstr (lowerStr path) k then s + k.length else s) s =
      ks.foldl (fun s k => s + (if countOcc (lowerStr path) k > 0 then k.length else 0)) s := by
    intro ks
    induction ks with
    | nil => intro s; rfl
    | cons k ks ih =>
      intro s
      simp only [List.foldl]
      cases h : hasSubstr (lowerStr path) k
      · have hno : ¬ countOcc (lowerStr path) k > 0 := fun hpos =>
          absurd ((countOcc_pos_iff _ _).mp hpos) (by simp [h])
        simp only [h, Bool.false_eq_true, if_false, hno, Nat.add_zero]
        exact ih s
      · have hyes : countOcc (lowerStr path) k > 0 := (countOcc_pos_iff _ _).mpr h
        simp only [h, if_true, hyes, if_pos]
        exact ih (s + k.length)
  exact h keywords 0

theorem sortByScoreDesc_const {α : Type} (v : Nat) (l : List (Nat × α))
    (h : ∀ x ∈ l, x.1 = v) : sortByScoreDesc l = l := by
  induction l with
  | nil => rfl
  | cons x xs ih =>
    have hx : x.1 = v := h x (List.mem_cons_self x xs)
    have hxs : sortByScoreDesc xs = xs :=
      ih (fun y hy => h y (List.mem_cons_of_mem _ hy))
    have hstep : sortByScoreDesc (x :: xs) = insertByScoreDesc x (sortByScoreDesc xs) := rfl
    rw [hstep, hxs]
    cases xs with
    | nil => rfl
    | cons y ys =>
      have hy : y.1 = v := h y (by simp)
      simp [insertByScoreDesc, hx, hy]

/-- C7 (amended): `findRelevantResources` extracts the length->1 Hangul and
Latin keyword runs of the lowercased question, adds each keyword's length
once when the keyword is contained in the candidate's path (not once per
occurrence), sorts stably by descending score and returns the first
`maxResults` candidates. -/
theorem claim7_scoring_amended (question : Str) (resources : List ResourceRef)
    (maxResults : Nat) :
    findRelevantResources question resources maxResults =
      findRelevantResourcesAmended question resources maxResults := by
  unfold findRelevantResources findRelevantResourcesAmended
  by_cases hk : (extractKeywords question).length = 0
  · have hkeq : extractKeywords question = [] := List.length_eq_zero.mp hk
    have hconst : sortByScoreDesc (resources.map (fun r => (amendedScoreByPath [] r.path, r))) =
        resources.map (fun r => (amendedScoreByPath [] r.path, r)) := by
      apply sortByScoreDesc_const 0
      intro x hx
      rcases List.mem_map.mp hx with ⟨r, _, rfl⟩
      rfl
    have hcomp : (Prod.snd ∘ fun r : ResourceRef => (amendedScoreByPath [] r.path, r)) = id := by
      funext r
      rfl
    rw [if_pos hk]
    show resources.take maxResults =
      List.map Prod.snd (List.take maxResults (sortByScoreDesc
        (resources.map (fun r => (amendedScoreByPath (extractKeywords question) r.path, r)))))
    rw [hkeq, hconst, ← List.map_take, List.map_map, hcomp, List.map_id]
  · rw [if_neg hk]
    have : (fun r : ResourceRef => (scoreByPath (extractKeywords question) r.path, r)) =
        (fun r : ResourceRef => (amendedScoreByPath (extractKeywords question) r.path, r)) := by
      funext r
      rw [scoreByPath_eq_amended]
    rw [this]

/-- The counterexample question (keywords `ab`, `cd`). -/
def claim7QuestionW : Str := ("ab cd").toList

/-- The counterexample candidates: a path containing `ab` three times, and
a path containing `ab` and `cd` once each. -/
def claim7ResourcesW : List ResourceRef :=
  [⟨("ababab").toList, []⟩, ⟨("ab cd").toList, []⟩]

/-- C7 counterexample: under occurrence-count scoring (as the claim words
it) `ababab` outscores `ab cd` (6 vs 4) while the code's containment
scoring ranks them the other way (2 vs 4), so the returned orderings
differ. -/
theorem claim7_counterexample :
    findRelevantResources claim7QuestionW claim7ResourcesW 5 ≠
      findRelevantResourcesSpecScored claim7QuestionW claim7ResourcesW 5 := by
  decide

theorem splitNl_append (a b : Str) :
    splitNl (a ++ b) =
      ((splitNl a).1 ++ (splitNl ((splitNl a).2 ++ b)).1,
        (splitNl ((splitNl a).2 ++ b)).2) := by
  induction a with
  | nil => simp [splitNl]
  | cons c cs ih =>
    by_cases hc : c = '\n'
    · subst hc
      show splitNl ('\n' :: (cs ++ b)) = _
      simp only [splitNl, if_pos rfl, ih]
      simp
    · show splitNl (c :: (cs ++ b)) = _
      simp only [splitNl, if_neg hc, ih]
      cases h1 : (splitNl cs).1 with
      | nil =>
        simp only [List.nil_append]
        cases h2 : (splitNl ((splitNl cs).2 ++ b)).1 <;> simp [splitNl, if_neg hc, h2]
      | cons l ls =>
        simp [splitNl, if_neg hc, h1]

theorem feedChunk_append (pd : Str → Option ParsedSse) (st : StreamAcc) (a b : Str) :
    feedChunk pd (feedChunk pd st a) b = feedChunk pd st (a ++ b) := by
  show StreamAcc.mk
      ((splitNl ((splitNl (st.buffer ++ a)).2 ++ b)).1.foldl (lineStep pd)
        ((splitNl (st.buffer ++ a)).1.foldl (lineStep pd) st.core))
      (splitNl ((splitNl (st.buffer ++ a)).2 ++ b)).2 =
    StreamAcc.mk ((splitNl (st.buffer ++ (a ++ b))).1.foldl (lineStep pd) st.core)
      (splitNl (st.buffer ++ (a ++ b))).2
  rw [← List.append_assoc, splitNl_append (st.buffer ++ a) b, List.foldl_append]

theorem feedChunks_cons_join (pd : Str → Option ParsedSse) :
    ∀ (cs : List Str) (st : StreamAcc) (c : Str),
      feedChunks pd st (c :: cs) = feedChunk pd st (c ++ cs.join) := by
  intro cs
  induction cs with
  | nil =>
    intro st c
    show feedChunk pd st c = feedChunk pd st (c ++ [])
    rw [List.append_nil]
  | cons c2 rest ih =>
    intro st c
    show feedChunks pd (feedChunk pd st c) (c2 :: rest) = _
    rw [ih (feedChunk pd st c) c2, feedChunk_append]
    rfl

/-- C8: the streaming consumer is chunking-invariant: feeding any partition
of a producer byte sequence (including splits that fall mid-line) yields
the same state — the same forwarded content frames, accumulated content,
captured model and usage — as feeding the whole sequence in one chunk;
partial lines are buffered across chunk boundaries, each complete `data: `
line goes through the JSON parser `pd`, and unparsable or `[DONE]` payloads
are skipped without effect. -/
theorem claim8_stream_chunking (pd : Str → Option ParsedSse) (chunks : List Str) :
    feedChunks pd initialStreamAcc chunks =
      feedChunk pd initialStreamAcc chunks.join ∧
    (feedChunks pd initialStreamAcc chunks).core.frames =
      (feedChunk pd initialStreamAcc chunks.join).core.frames ∧
    (feedChunks pd initialStreamAcc chunks).core.accumulatedContent =
      (feedChunk pd initialStreamAcc chunks.join).core.accumulatedContent ∧
    (feedChunks pd initialStreamAcc chunks).core.modelName =
      (feedChunk pd initialStreamAcc chunks.join).core.modelName ∧
    (feedChunks pd initialStreamAcc chunks).core.usage =
      (feedChunk pd initialStreamAcc chunks.join).core.usage := by
  have h : feedChunks pd initialStreamAcc chunks =
      feedChunk pd initialStreamAcc chunks.join := by
    cases chunks with
    | nil => rfl
    | cons c cs => exact feedChunks_cons_join pd cs initialStreamAcc c
  exact ⟨h, by rw [h], by rw [h], by rw [h], by rw [h]⟩

/-- A content item is JSON-shaped when it is a text item whose trimmed text
starts with a brace or bracket (non-text items impose nothing). -/
def itemJsonShaped : ContentItem → Bool
  | ContentItem.textItem t => startsJson t
  | ContentItem.otherItem => true

/-- Every text item of the tool result, in `texts` and among the raw
content items, is JSON-shaped. -/
def allJsonShaped (tr : CallToolParsed) : Bool :=
  tr.texts.all startsJson && tr.rawContentItems.all itemJsonShaped

theorem dropWhile_append_singleton {p : Char → Bool} {c : Char}
    (h : p c = false) (xs : List Char) :
    List.dropWhile p (xs ++ [c]) = List.dropWhile p xs ++ [c] := by
  induction xs with
  | nil => simp [List.dropWhile, h]
  | cons x xt ih =>
    by_cases hx : p x
    · simp [List.dropWhile, hx, ih]
    · simp [List.dropWhile, hx]

theorem trimJs_cons_ws {c : Char} (cs : Str) (h : isJsWs c = true) :
    trimJs (c :: cs) = trimJs cs := by
  unfold trimJs
  rw [List.dropWhile_cons_of_pos h]

theorem trimJs_cons_nws {c : Char} (cs : Str) (h : isJsWs c = false) :
    trimJs (c :: cs) = c :: (List.dropWhile isJsWs cs.reverse).reverse := by
  unfold trimJs
  rw [List.dropWhile_cons_of_neg (by simp [h]), List.reverse_cons,
    dropWhile_append_singleton h, List.reverse_append]
  rfl

theorem startsJson_cons_nws {c : Char} (cs : Str) (h : isJsWs c = false) :
    startsJson (c :: cs) = (c = '{' || c = '[') := by
  unfold startsJson
  rw [trimJs_cons_nws cs h]

theorem startsJson_cons_ws {c : Char} (cs : Str) (h : isJsWs c = true) :
    startsJson (c :: cs) = startsJson cs := by
  unfold startsJson
  rw [trimJs_cons_ws cs h]

theorem startsJson_append (t x : Str) (h : startsJson t = true) :
    startsJson (t ++ x) = true := by
  induction t with
  | nil => simp [startsJson, trimJs] at h
  | cons c cs ih =>
    by_cases hc : isJsWs c
    · rw [startsJson_cons_ws cs hc] at h
      rw [List.cons_append, startsJson_cons_ws (cs ++ x) hc]
      exact ih h
    · rw [Bool.not_eq_true] at hc
      rw [startsJson_cons_nws cs hc] at h
      rw [List.cons_append, startsJson_cons_nws (cs ++ x) hc]
      exact h

theorem startsJson_joinNl (t : Str) (rest : List Str) (h : startsJson t = true) :
    startsJson (joinNl (t :: rest)) = true := by
  cases rest with
  | nil => exact h
  | cons r rs =>
    show startsJson (t ++ '\n' :: joinWithChar '\n' (r :: rs)) = true
    exact startsJson_append _ _ h

theorem extract_allJson_empty (tr : CallToolParsed) (h : allJsonShaped tr = true) :
    extractContentFromToolResult tr = [] := by
  unfold allJsonShaped at h
  rw [Bool.and_eq_true] at h
  rcases h with ⟨htexts, hitems⟩
  have htexts2 := List.all_eq_true.mp htexts
  have hitems2 := List.all_eq_true.mp hitems
  unfold extractContentFromToolResult
  have hfold : ∀ (items : List ContentItem) (acc : List Str),
      (∀ i ∈ items, itemJsonShaped i = true) →
      items.foldl
        (fun acc item =>
          match item with
          | ContentItem.textItem t =>
            if t ≠ [] ∧ ¬startsJson t then acc ++ [t] else acc
          | ContentItem.otherItem => acc)
        acc = acc := by
    intro items
    induction items with
    | nil => intro acc _; rfl
    | cons i rest ih =>
      intro acc hall
      cases i with
      | textItem t =>
        have hjson : startsJson t = true := hall (ContentItem.textItem t) (by simp)
        have hcond : ¬ (t ≠ [] ∧ ¬startsJson t = true) := fun hcon => hcon.2 hjson
        simp only [List.foldl, hcond, if_false]
        exact ih acc (fun j hj => hall j (List.mem_cons_of_mem _ hj))
      | otherItem =>
        simp only [List.foldl]
        exact ih acc (fun j hj => hall j (List.mem_cons_of_mem _ hj))
  have hfb : (if tr.texts.length > 0 then
      if joinNl tr.texts ≠ [] ∧ ¬startsJson (joinNl tr.texts) then some (joinNl tr.texts)
      else none
    else none) = none := by
    cases htl : tr.texts with
    | nil => simp [htl]
    | cons t rest =>
      have hjson : startsJson t = true := htexts2 t (by rw [htl]; simp)
      have hjoined : startsJson (joinNl (t :: rest)) = true := startsJson_joinNl t rest hjson
      simp
      exact fun _ => hjoined
  simp only [hfb, hfold tr.rawContentItems [] hitems2]
  rfl

theorem buildCandidateStep_json
    (fetchDoc : Str → Except Unit CallToolParsed) (acc : List DocumentCandidate)
    (r : ResourceRef)
    (hr : ∀ tr, fetchDoc (normalizeResourcePath r.path) = Except.ok tr →
      allJsonShaped tr = true) :
    buildCandidateStep fetchDoc acc r = acc := by
  unfold buildCandidateStep
  cases hfd : fetchDoc (normalizeResourcePath r.path) with
  | error e => rfl
  | ok tr =>
    have hext : extractContentFromToolResult tr = [] :=
      extract_allJson_empty tr (hr _ hfd)
    simp [hext]

theorem buildCandidates_allJson
    (fetchDoc : Str → Except Unit CallToolParsed)
    (hf : ∀ p tr, fetchDoc p = Except.ok tr → allJsonShaped tr = true)
    (rs : List ResourceRef) : buildCandidates rs fetchDoc = [] := by
  unfold buildCandidates
  have h : ∀ (rs2 : List ResourceRef) (acc : List DocumentCandidate),
      rs2.foldl (buildCandidateStep fetchDoc) acc = acc := by
    intro rs2
    induction rs2 with
    | nil => intro acc; rfl
    | cons r rest ih =>
      intro acc
      simp only [List.foldl]
      rw [buildCandidateStep_json fetchDoc acc r (fun tr2 h2 => hf _ _ h2)]
      exact ih acc
  exact h rs []

/-- C10: the content extractor returns the empty string whenever every text
item of the tool result is JSON-shaped after trimming; consequently a
fetched document whose whole body is JSON-shaped contributes nothing to the
candidate list (removing it changes nothing), the document filter returns
empty content with no used resources, and `hadReferenceContent` stays
false. -/
theorem claim10_json_shaped_content
    (tr : CallToolParsed) (question : Str) (filteredResources : List ResourceRef)
    (fetchDoc : Str → Except Unit CallToolParsed) (llm : Except Unit Str)
    (tc : ToolCallRequest) (callRes : CallToolParsed) (urlOf : Str → Str)
    (rs1 rs2 : List ResourceRef) (r : ResourceRef) :
    (allJsonShaped tr = true → extractContentFromToolResult tr = []) ∧
    ((∀ tr2, fetchDoc (normalizeResourcePath r.path) = Except.ok tr2 →
        allJsonShaped tr2 = true) →
      buildCandidates (rs1 ++ r :: rs2) fetchDoc =
        buildCandidates (rs1 ++ rs2) fetchDoc) ∧
    ((∀ p tr2, fetchDoc p = Except.ok tr2 → allJsonShaped tr2 = true) →
      fetchRelevantResourceContents question filteredResources fetchDoc llm =
        ⟨[], []⟩) ∧
    ((∀ p tr2, fetchDoc p = Except.ok tr2 → allJsonShaped tr2 = true) →
      (executeToolCore tc question callRes fetchDoc llm urlOf).hadReferenceContent =
        false) := by
  refine ⟨extract_allJson_empty tr, ?_, ?_, ?_⟩
  · intro hr
    unfold buildCandidates
    rw [List.foldl_append, List.foldl_append, List.foldl_cons,
      buildCandidateStep_json fetchDoc _ r hr]
  · intro hf
    have hbc := buildCandidates_allJson fetchDoc hf
    simp [fetchRelevantResourceContents, hbc]
  · intro hf
    have hfr : ∀ (frs : List ResourceRef),
        fetchRelevantResourceContents question frs fetchDoc llm = ⟨[], []⟩ := by
      intro frs
      simp [fetchRelevantResourceContents, buildCandidates_allJson fetchDoc hf]
    have h0 : trimJs ([] : Str) = [] := rfl
    simp only [executeToolCore, hfr, h0]
    split
    · simp
    · rfl

/-- A tool result whose every text item is JSON-shaped. -/
def claim10TrW : CallToolParsed :=
  ⟨[("[1]").toList], [ContentItem.textItem (("[2]").toList)], ("RAW").toList, []⟩

/-- An oracle that always returns the JSON-shaped tool result. -/
def claim10FetchW : Str → Except Unit CallToolParsed :=
  fun _ => Except.ok claim10TrW

theorem claim10_witness :
    extractContentFromToolResult claim10TrW = [] ∧
    fetchRelevantResourceContents ("abcd").toList [⟨("doc").toList, [mdStr]⟩]
      claim10FetchW (Except.error ()) = ⟨[], []⟩ :=
  ⟨(claim10_json_shaped_content claim10TrW [] [] claim10FetchW (Except.error ())
      ⟨[], [], []⟩ claim10TrW id [] [] ⟨[], []⟩).1 (by decide),
   (claim10_json_shaped_content claim10TrW (("abcd").toList)
      [⟨("doc").toList, [mdStr]⟩] claim10FetchW (Except.error ())
      ⟨[], [], []⟩ claim10TrW id [] [] ⟨[], []⟩).2.2.1
      (by
        intro p tr2 h
        simp [claim10FetchW] at h
        rw [← h]
        decide)⟩

theorem mem_insertByScoreDesc {α : Type} (x y : Nat × α) (l : List (Nat × α)) :
    y ∈ insertByScoreDesc x l ↔ y = x ∨ y ∈ l := by
  induction l with
  | nil => simp [insertByScoreDesc]
  | cons z zs ih =>
    unfold insertByScoreDesc
    by_cases h : z.1 > x.1
    · simp only [h, if_true, List.mem_cons, ih]
      tauto
    · simp [h]

theorem mem_sortByScoreDesc {α : Type} (y : Nat × α) (l : List (Nat × α)) :
    y ∈ sortByScoreDesc l ↔ y ∈ l := by
  induction l with
  | nil => simp [sortByScoreDesc]
  | cons x xs ih =>
    have hstep : sortByScoreDesc (x :: xs) = insertByScoreDesc x (sortByScoreDesc xs) := rfl
    rw [hstep, mem_insertByScoreDesc, ih, List.mem_cons]

theorem findRelevantResources_subset (question : Str) (resources : List ResourceRef)
    (maxResults : Nat) :
    ∀ r ∈ findRelevantResources question resources maxResults, r ∈ resources := by
  intro r hr
  unfold findRelevantResources at hr
  by_cases hk : (extractKeywords question).length = 0
  · rw [if_pos hk] at hr
    exact List.take_subset _ _ hr
  · rw [if_neg hk] at hr
    rcases List.mem_map.mp hr with ⟨p, hp, hsnd⟩
    have hp2 : p ∈ sortByScoreDesc (resources.map
        (fun r => (scoreByPath (extractKeywords question) r.path, r))) :=
      List.take_subset _ _ hp
    have hp3 := (mem_sortByScoreDesc p _).mp hp2
    rcases List.mem_map.mp hp3 with ⟨r0, hr0, rfl⟩
    rw [← hsnd]
    exact hr0

theorem buildCandidateStep_mem (fetchDoc : Str → Except Unit CallToolParsed)
    (acc : List DocumentCandidate) (r : ResourceRef) (dc : DocumentCandidate)
    (hdc : dc ∈ buildCandidateStep fetchDoc acc r) :
    dc ∈ acc ∨ (dc.path = r.path ∧ dc.formats = r.formats) := by
  unfold buildCandidateStep at hdc
  rcases hfd : fetchDoc (normalizeResourcePath r.path) with e | tr <;> rw [hfd] at hdc
  · exact Or.inl hdc
  · simp only at hdc
    by_cases hc : extractContentFromToolResult tr ≠ []
    · rw [if_pos hc] at hdc
      rcases List.mem_append.mp hdc with h1 | h1
      · exact Or.inl h1
      · rcases List.mem_singleton.mp h1 with rfl
        exact Or.inr ⟨rfl, rfl⟩
    · rw [if_neg hc] at hdc
      exact Or.inl hdc

theorem buildCandidates_mem (rs : List ResourceRef)
    (fetchDoc : Str → Except Unit CallToolParsed) :
    ∀ dc ∈ buildCandidates rs fetchDoc, ∃ r ∈ rs, dc.path = r.path ∧ dc.formats = r.formats := by
  have h : ∀ (rs2 : List ResourceRef) (acc : List DocumentCandidate) (dc : DocumentCandidate),
      dc ∈ rs2.foldl (buildCandidateStep fetchDoc) acc →
      dc ∈ acc ∨ ∃ r ∈ rs2, dc.path = r.path ∧ dc.formats = r.formats := by
    intro rs2
    induction rs2 with
    | nil => intro acc dc hdc; exact Or.inl hdc
    | cons r rest ih =>
      intro acc dc hdc
      rw [List.foldl_cons] at hdc
      rcases ih _ dc hdc with hacc | ⟨r2, hr2, h2⟩
      · rcases buildCandidateStep_mem fetchDoc acc r dc hacc with h1 | h1
        · exact Or.inl h1
        · exact Or.inr ⟨r, List.mem_cons_self r rest, h1⟩
      · exact Or.inr ⟨r2, List.mem_cons_of_mem _ hr2, h2⟩
  intro dc hdc
  rcases h rs [] dc hdc with hfalse | hgood
  · cases hfalse
  · exact hgood

theorem collectSelected_used_mem (cands : List DocumentCandidate)
    (selected : List SelectableDoc) :
    ∀ u ∈ (collectSelected cands selected).used,
      ∃ dc ∈ cands, u = ⟨dc.path, filterPdfPng dc.formats⟩ ∧
        (dc.formats.contains pdfStr || dc.formats.contains pngStr) = true := by
  have hchar : ∀ (acc : CollectAcc) (sel : SelectableDoc),
      (collectSelectedStep cands acc sel).used =
        match cands.find? (fun d => d.title = sel.title) with
        | none => acc.used
        | some dc =>
          if (dc.formats.contains pdfStr || dc.formats.contains pngStr) = true
          then acc.used ++ [⟨dc.path, filterPdfPng dc.formats⟩]
          else acc.used := by
    intro acc sel
    unfold collectSelectedStep
    rcases hfind : cands.find? (fun d => d.title = sel.title) with _ | dc <;> rw [hfind]
    · dsimp only
      by_cases hfmt : (dc.formats.contains pdfStr || dc.formats.contains pngStr) = true
      · rw [if_pos hfmt]
        by_cases hsub : dc.subDocuments.length > 0
        · rw [if_pos hsub, if_pos hfmt]
        · rw [if_neg hsub, if_pos hfmt]
      · rw [if_neg hfmt]
        by_cases hsub : dc.subDocuments.length > 0
        · rw [if_pos hsub, if_neg hfmt]
        · rw [if_neg hsub, if_neg hfmt]
  have hstep : ∀ (acc : CollectAcc) (sel : SelectableDoc) (u : ResourceRef),
      u ∈ (collectSelectedStep cands acc sel).used →
      u ∈ acc.used ∨ ∃ dc ∈ cands, u = ⟨dc.path, filterPdfPng dc.formats⟩ ∧
        (dc.formats.contains pdfStr || dc.formats.contains pngStr) = true := by
    intro acc sel u hu
    rw [hchar acc sel] at hu
    rcases hfind : cands.find? (fun d => d.title = sel.title) with _ | dc <;>
      rw [hfind] at hu <;> simp only at hu
    · exact Or.inl hu
    · have hdc : dc ∈ cands := List.mem_of_find?_eq_some hfind
      by_cases hfmt : (dc.formats.contains pdfStr || dc.formats.contains pngStr) = true
      · rw [if_pos hfmt] at hu
        rcases List.mem_append.mp hu with h1 | h1
        · exact Or.inl h1
        · exact Or.inr ⟨dc, hdc, List.mem_singleton.mp h1, hfmt⟩
      · rw [if_neg hfmt] at hu
        exact Or.inl hu
  have h : ∀ (sel2 : List SelectableDoc) (acc : CollectAcc) (u : ResourceRef),
      u ∈ (sel2.foldl (collectSelectedStep cands) acc).used →
      u ∈ acc.used ∨ ∃ dc ∈ cands, u = ⟨dc.path, filterPdfPng dc.formats⟩ ∧
        (dc.formats.contains pdfStr || dc.formats.contains pngStr) = true := by
    intro sel2
    induction sel2 with
    | nil => intro acc u hu; exact Or.inl hu
    | cons s rest ih =>
      intro acc u hu
      rw [List.foldl_cons] at hu
      rcases ih _ u hu with hacc | hgood
      · exact hstep acc s u hacc
      · exact Or.inr hgood
  intro u hu
  rcases h selected ⟨[], [], []⟩ u hu with hfalse | hgood
  · cases hfalse
  · exact hgood

theorem buildResourceInfos_mem (urlOf : Str → Str) (us : List ResourceRef) :
    ∀ info ∈ buildResourceInfos urlOf us,
      ∃ u ∈ us, u.path ≠ [] ∧ (filterPdfPng u.formats).length > 0 ∧
        info = resourceInfoOfRef urlOf u := by
  have h : ∀ (us2 : List ResourceRef) (acc : List ResourceInfo) (info : ResourceInfo),
      info ∈ us2.foldl (buildResourceInfoStep urlOf) acc →
      info ∈ acc ∨ ∃ u ∈ us2, u.path ≠ [] ∧ (filterPdfPng u.formats).length > 0 ∧
        info = resourceInfoOfRef urlOf u := by
    intro us2
    induction us2 with
    | nil => intro acc info hinfo; exact Or.inl hinfo
    | cons u rest ih =>
      intro acc info hinfo
      rw [List.foldl_cons] at hinfo
      rcases ih _ info hinfo with hacc | ⟨u2, hu2, h2⟩
      · unfold buildResourceInfoStep at hacc
        by_cases hp : u.path ≠ []
        · rw [if_pos hp] at hacc
          by_cases hl : (filterPdfPng u.formats).length > 0
          · rw [if_pos hl] at hacc
            rcases List.mem_append.mp hacc with h1 | h1
            · exact Or.inl h1
            · exact Or.inr ⟨u, List.mem_cons_self u rest, hp, hl,
                List.mem_singleton.mp h1⟩
          · rw [if_neg hl] at hacc
            exact Or.inl hacc
        · rw [if_neg hp] at hacc
          exact Or.inl hacc
      · exact Or.inr ⟨u2, List.mem_cons_of_mem _ hu2, h2⟩
  intro info hinfo
  rcases h us [] info hinfo with hfalse | hgood
  · cases hfalse
  · exact hgood

theorem filterPdfPng_idem (l : List Str) :
    filterPdfPng (filterPdfPng l) = filterPdfPng l := by
  unfold filterPdfPng
  apply List.filter_eq_self.mpr
  intro a ha
  exact (List.mem_filter.mp ha).2

theorem fetchRelevant_used_mem (question : Str) (fr : List ResourceRef)
    (fetchDoc : Str → Except Unit CallToolParsed) (llm : Except Unit Str) :
    ∀ u ∈ (fetchRelevantResourceContents question fr fetchDoc llm).usedResources,
      ∃ r ∈ fr, u.path = r.path ∧ u.formats = filterPdfPng r.formats ∧
        (r.formats.contains pdfStr || r.formats.contains pngStr) = true := by
  intro u hu
  unfold fetchRelevantResourceContents at hu
  split at hu
  · simp at hu
  · dsimp only at hu
    split at hu
    · simp at hu
    · split at hu
      · simp at hu
      · split at hu
        · simp at hu
        · split at hu
          · simp at hu
          · rcases collectSelected_used_mem _ _ u hu with ⟨dc, hdc, hu2, hfmt⟩
            rcases buildCandidates_mem _ _ dc hdc with ⟨r0, hr0, hpath, hformats⟩
            refine ⟨r0,
              (List.mem_filter.mp (findRelevantResources_subset _ _ _ r0 hr0)).1,
              ?_, ?_, ?_⟩
            · rw [hu2, hpath]
            · rw [hu2, hformats]
            · rw [← hformats]
              exact hfmt

theorem executeToolCore_resources_mem (tc : ToolCallRequest) (question : Str)
    (callRes : CallToolParsed)
    (fetchDoc : Str → Except Unit CallToolParsed) (llm : Except Unit Str)
    (urlOf : Str → Str) :
    ∀ info ∈ (executeToolCore tc question callRes fetchDoc llm urlOf).resources,
      info.formats ≠ [] ∧ (∀ f ∈ info.formats, f = pdfStr ∨ f = pngStr) ∧
      ∃ r ∈ callRes.filteredResources,
        (r.formats.contains pdfStr || r.formats.contains pngStr) = true ∧
        info.url = urlOf r.path ∧ info.formats = filterPdfPng r.formats := by
  have hmain : ∀ info ∈ buildResourceInfos urlOf
      (fetchRelevantResourceContents question callRes.filteredResources fetchDoc llm).usedResources,
      info.formats ≠ [] ∧ (∀ f ∈ info.formats, f = pdfStr ∨ f = pngStr) ∧
      ∃ r ∈ callRes.filteredResources,
        (r.formats.contains pdfStr || r.formats.contains pngStr) = true ∧
        info.url = urlOf r.path ∧ info.formats = filterPdfPng r.formats := by
    intro info hinfo
    rcases buildResourceInfos_mem urlOf _ info hinfo with ⟨u, hu, hpne, hlen, hinfoeq⟩
    rcases fetchRelevant_used_mem question callRes.filteredResources fetchDoc llm u hu
      with ⟨r, hr, hupath, huformats, hfmt⟩
    have hformats : info.formats = filterPdfPng u.formats := by rw [hinfoeq]; rfl
    have hurl : info.url = urlOf u.path := by rw [hinfoeq]; rfl
    refine ⟨?_, ?_, r, hr, hfmt, ?_, ?_⟩
    · rw [hformats]
      exact List.ne_nil_of_length_pos hlen
    · intro f hf
      rw [hformats] at hf
      have := (List.mem_filter.mp hf).2
      simpa using this
    · rw [hurl, hupath]
    · rw [hformats, huformats, filterPdfPng_idem]
  intro info hinfo
  unfold executeToolCore at hinfo
  simp only at hinfo
  split at hinfo
  · split at hinfo
    · simp only at hinfo
      exact hmain info hinfo
    · simp only [buildResourceInfos, List.foldl_nil] at hinfo
      cases hinfo
  · simp only [buildResourceInfos, List.foldl_nil] at hinfo
    cases hinfo

/-- The md-only scenario: a resource whose only format is markdown. -/
def claim5MdResourceW : ResourceRef := ⟨("doc").toList, [mdStr]⟩

/-- The fetch oracle of the md-only scenario. -/
def claim5FetchW : Str → Except Unit CallToolParsed := fun p =>
  if p = ("doc").toList then
    Except.ok ⟨[("hello world").toList], [], [], []⟩
  else Except.error ()

/-- The grounding block the md-only document contributes. -/
def claim5ExpectedContentW : Str :=
  ("\n\n## 리소스: doc.md\n\nhello world").toList

/-- C5: every client-facing `ResourceInfo` carries a nonempty format set
drawn from pdf/png only and originates from a listed resource that itself
has a pdf or png format; the used-resource list of the document filter
likewise references only pdf/png-bearing inputs; and a document whose only
format is markdown has its text emitted into the grounding content while
the used-resource (citation) list stays empty. -/
theorem claim5_resource_filtering (tc : ToolCallRequest) (question : Str)
    (callRes : CallToolParsed)
    (fetchDoc : Str → Except Unit CallToolParsed) (llm : Except Unit Str)
    (urlOf : Str → Str) (fr : List ResourceRef) :
    (∀ info ∈ (executeToolCore tc question callRes fetchDoc llm urlOf).resources,
      info.formats ≠ [] ∧ (∀ f ∈ info.formats, f = pdfStr ∨ f = pngStr) ∧
      ∃ r ∈ callRes.filteredResources,
        (r.formats.contains pdfStr || r.formats.contains pngStr) = true ∧
        info.url = urlOf r.path ∧ info.formats = filterPdfPng r.formats) ∧
    (∀ u ∈ (fetchRelevantResourceContents question fr fetchDoc llm).usedResources,
      ∃ r ∈ fr, u.path = r.path ∧ u.formats = filterPdfPng r.formats ∧
        (r.formats.contains pdfStr || r.formats.contains pngStr) = true) ∧
    fetchRelevantResourceContents (("abcd q").toList) [claim5MdResourceW]
        claim5FetchW (Except.error ()) =
      ⟨claim5ExpectedContentW, []⟩ :=
  ⟨executeToolCore_resources_mem tc question callRes fetchDoc llm urlOf,
   fetchRelevant_used_mem question fr fetchDoc llm,
   by decide⟩

/-- The witness scenario: a listed resource carrying both pdf and md. -/
def claim5PdfResW : ResourceRef := ⟨("a").toList, [pdfStr, mdStr]⟩

/-- The `list_resources` call result of the witness scenario. -/
def claim5ListResW : CallToolParsed :=
  ⟨[("listing").toList], [], [], [claim5PdfResW]⟩

/-- The fetch oracle of the witness scenario. -/
def claim5Fetch2W : Str → Except Unit CallToolParsed := fun p =>
  if p = ("a").toList then
    Except.ok ⟨[("hello world").toList], [], [], []⟩
  else Except.error ()

/-- The citation the witness scenario produces. -/
def claim5InfoW : ResourceInfo := ⟨("a (PDF)").toList, [pdfStr], ("a").toList⟩

theorem claim5_witness :
    claim5InfoW.formats ≠ [] ∧
    (∀ f ∈ claim5InfoW.formats, f = pdfStr ∨ f = pngStr) ∧
    ∃ r ∈ claim5ListResW.filteredResources,
      (r.formats.contains pdfStr || r.formats.contains pngStr) = true ∧
      claim5InfoW.url = id r.path ∧ claim5InfoW.formats = filterPdfPng r.formats :=
  (claim5_resource_filtering ⟨("id1").toList, listResourcesName, []⟩ (("q").toList)
      claim5ListResW claim5Fetch2W (Except.error ()) id []).1 claim5InfoW (by decide)

end ChatbotBe
